import Mathlib

/-!
Shallow embedding of kosmonaut's `src/style/properties/mod.rs`: the CSS
cascade core (property declarations, declaration blocks, contextual
declarations and their `Ord` implementation, the contextual-declaration
collection, and the declaration-list parsing adapter).

Machine values that the source treats opaquely (specified-value payloads,
specificity) are modelled as `Nat`; booleans stay `Bool`; Rust's
`Ordering` is Lean's `Ordering` (`Less ↦ .lt`, `Equal ↦ .eq`,
`Greater ↦ .gt`).
-/

namespace Kosmonaut

/-- The discriminant (`mem::discriminant`) of a `PropertyDeclaration`:
one value per variant of the Rust enum. -/
inductive PropTag where
  | display
  | fontSize
  | marginLeft
deriving DecidableEq, Repr

/-- Source `PropertyDeclaration`: the closed tagged union of supported longhand
properties (`Display`, `FontSize`, `MarginLeft`), each variant carrying its
specified-value payload.  The payloads (`Display` keyword, `FontSize`,
`LengthPercentage`) are external value types the cascade core never
inspects, so they are modelled as `Nat`. -/
inductive PropertyDeclaration where
  | Display (v : Nat)
  | FontSize (v : Nat)
  | MarginLeft (v : Nat)
deriving DecidableEq, Repr

/-- Source `mem::discriminant` on a `PropertyDeclaration`. -/
def PropertyDeclaration.tag : PropertyDeclaration → PropTag
  | .Display _ => .display
  | .FontSize _ => .fontSize
  | .MarginLeft _ => .marginLeft

/-- Source `Importance`: whether a declaration carries `!important`. -/
inductive Importance where
  | Normal
  | Important
deriving DecidableEq, Repr

/-- Source `Importance::important`. -/
def Importance.important : Importance → Bool
  | .Normal => false
  | .Important => true

/-- Modelled from the spec: `LonghandId` lives in `src/style/properties/id.rs`,
which is not part of the cascade core's sources; the spec describes the
property registry as a lookup producing stable identifiers, with `Display`,
`FontSize` and `MarginLeft` the supported longhands and further longhands
reaching `parse_into`'s catch-all arm (modelled by `other`). -/
inductive LonghandId where
  | Display
  | FontSize
  | MarginLeft
  | other (n : Nat)
deriving DecidableEq, Repr

/-- Modelled from the spec: shorthand identifiers from the external property
registry; only their identity matters to this core. -/
inductive ShorthandId where
  | mk (n : Nat)
deriving DecidableEq, Repr

/-- Source `PropertyId`: `Longhand(LonghandId)` or `Shorthand(ShorthandId)`. -/
inductive PropertyId where
  | Longhand (l : LonghandId)
  | Shorthand (s : ShorthandId)
deriving DecidableEq, Repr

/-- Modelled from the spec: the `From<&PropertyDeclaration> for LonghandId`
mapping (in `id.rs`, outside the core's sources) sends each declaration
variant to its longhand identifier. -/
def PropertyDeclaration.longhandId : PropertyDeclaration → LonghandId
  | .Display _ => .Display
  | .FontSize _ => .FontSize
  | .MarginLeft _ => .MarginLeft

/-- Source `CascadeOrigin` (user agent / user / author). -/
inductive CascadeOrigin where
  | UserAgent
  | User
  | Author
deriving DecidableEq, Repr

/-- Source `StylesheetOrigin`: a sheet name plus its cascade origin. -/
structure StylesheetOrigin where
  sheetName : String
  cascadeOrigin : CascadeOrigin
deriving DecidableEq, Repr

/-- Source `CssOrigin`: inline style attribute, embedded style block, or a sheet. -/
inductive CssOrigin where
  | Inline
  | Embedded
  | Sheet (origin : StylesheetOrigin)
deriving DecidableEq, Repr

/-- External `cssparser::SourceLocation` (line and column), diagnostic only. -/
structure SourceLocation where
  line : Nat
  column : Nat
deriving DecidableEq, Repr

/-- Source `Specificity`: externally computed, totally ordered; modelled as `Nat`. -/
abbrev Specificity := Nat

/-- Source `ContextualPropertyDeclaration`: a declaration with its cascade
metadata. -/
structure ContextualPropertyDeclaration where
  innerDecl : PropertyDeclaration
  important : Bool
  origin : CssOrigin
  sourceLocation : Option SourceLocation
  specificity : Specificity
deriving DecidableEq, Repr

/-- The inner helper `cmp_important_origins` of
`Ord for ContextualPropertyDeclaration`: origin precedence when both sides
are important (user agent > user > author, with inline/embedded equal to
author-origin sheets). -/
def cmpImportantOrigins : CssOrigin → CssOrigin → Ordering
  | .Inline, .Inline => .eq
  | .Inline, .Embedded => .eq
  | .Embedded, .Inline => .eq
  | .Embedded, .Embedded => .eq
  | .Inline, .Sheet o => match o.cascadeOrigin with
    | .UserAgent => .lt
    | .User => .lt
    | .Author => .eq
  | .Embedded, .Sheet o => match o.cascadeOrigin with
    | .UserAgent => .lt
    | .User => .lt
    | .Author => .eq
  | .Sheet s, .Inline => match s.cascadeOrigin with
    | .UserAgent => .gt
    | .User => .gt
    | .Author => .eq
  | .Sheet s, .Embedded => match s.cascadeOrigin with
    | .UserAgent => .gt
    | .User => .gt
    | .Author => .eq
  | .Sheet s, .Sheet o => match s.cascadeOrigin, o.cascadeOrigin with
    | .UserAgent, .UserAgent => .eq
    | .UserAgent, .User => .gt
    | .UserAgent, .Author => .gt
    | .User, .UserAgent => .lt
    | .User, .User => .eq
    | .User, .Author => .gt
    | .Author, .UserAgent => .lt
    | .Author, .User => .lt
    | .Author, .Author => .eq

/-- Source `Ord::cmp for ContextualPropertyDeclaration`: importance first, then
origin precedence (inverted when both sides are normal), then specificity;
declarations of differing property tags compare equal (including the
source's defensive fallthrough `return Ordering::Equal`). -/
def ContextualPropertyDeclaration.cmp
    (a b : ContextualPropertyDeclaration) : Ordering :=
  if a.innerDecl.tag = b.innerDecl.tag then
    if a.important && !b.important then .gt
    else if !a.important && b.important then .lt
    else if a.important && b.important then
      match cmpImportantOrigins a.origin b.origin with
      | .gt => .gt
      | .lt => .lt
      | .eq => compare a.specificity b.specificity
    else if !a.important && !b.important then
      match cmpImportantOrigins a.origin b.origin with
      | .lt => .gt
      | .gt => .lt
      | .eq => compare a.specificity b.specificity
    else .eq
  else .eq

/-- Source `PropertyDeclarationBlock`: insertion-ordered declarations, a parallel
bit-vector of importance flags (`SmallBitVec` modelled as `List Bool`), and
the `HashSet<LonghandId>` of longhands (modelled as `Finset LonghandId`). -/
structure PropertyDeclarationBlock where
  declarations : List PropertyDeclaration
  declarationsImportance : List Bool
  longhands : Finset LonghandId
deriving DecidableEq

/-- Source `PropertyDeclarationBlock::new` (the `Default` instance: all empty). -/
def PropertyDeclarationBlock.new : PropertyDeclarationBlock :=
  ⟨[], [], ∅⟩

/-- The scan in `add_declaration`: the `for` loop overwrites `swap_index` on
every discriminant match, so the LAST matching index wins.  This recursion
returns exactly that last matching index (preferring a match in the tail). -/
def lastMatchIdx (t : PropTag) : List PropertyDeclaration → Option Nat
  | [] => none
  | d :: ds =>
    match lastMatchIdx t ds with
    | some i => some (i + 1)
    | none => if d.tag = t then some 0 else none

/-- Source `PropertyDeclarationBlock::add_declaration`: replace in place at the
matched slot (declaration payload and importance bit), else append both.
Note the source never touches the `longhands` set here. -/
def PropertyDeclarationBlock.addDeclaration (block : PropertyDeclarationBlock)
    (newDecl : PropertyDeclaration) (newImportance : Importance) :
    PropertyDeclarationBlock :=
  match lastMatchIdx newDecl.tag block.declarations with
  | some idx =>
    { block with
      declarations := block.declarations.set idx newDecl
      declarationsImportance :=
        block.declarationsImportance.set idx newImportance.important }
  | none =>
    { block with
      declarations := block.declarations ++ [newDecl]
      declarationsImportance :=
        block.declarationsImportance ++ [newImportance.important] }

/-- Source `PropertyDeclarationBlock::remove_decl`: removes the declaration at
`index` — and, as in the source, touches neither the importance bit-vector
nor the `longhands` set. -/
def PropertyDeclarationBlock.removeDecl (block : PropertyDeclarationBlock)
    (index : Nat) : PropertyDeclarationBlock :=
  { block with declarations := block.declarations.eraseIdx index }

/-- Source `ContextualPropertyDeclarations`: the accumulator for one element's
contextual declarations, with its derived presence set. -/
structure ContextualPropertyDeclarations where
  decls : List ContextualPropertyDeclaration
  longhands : Finset LonghandId
deriving DecidableEq

/-- Source `ContextualPropertyDeclarations::new`. -/
def ContextualPropertyDeclarations.new : ContextualPropertyDeclarations :=
  ⟨[], ∅⟩

/-- Source `ContextualPropertyDeclarations::add`: record the longhand, append the
declaration. -/
def ContextualPropertyDeclarations.add (c : ContextualPropertyDeclarations)
    (newDecl : ContextualPropertyDeclaration) : ContextualPropertyDeclarations :=
  ⟨c.decls ++ [newDecl], insert newDecl.innerDecl.longhandId c.longhands⟩

/-- Source `ContextualPropertyDeclarations::contains`. -/
def ContextualPropertyDeclarations.contains (c : ContextualPropertyDeclarations)
    (longhand : LonghandId) : Bool :=
  longhand ∈ c.longhands

/-- One step of the insertion sort used by Rust's stable `slice::sort` on
short slices (`len < MAX_INSERTION`, which covers every slice considered
here): the new element is shifted left past its predecessor exactly while it
compares strictly `Less`.  `acc` is the already-sorted slice held in
REVERSED order, so the scan walks `acc` from its head. -/
def insertByCmp (x : ContextualPropertyDeclaration) :
    List ContextualPropertyDeclaration → List ContextualPropertyDeclaration
  | [] => [x]
  | y :: ys =>
    if x.cmp y = .lt then y :: insertByCmp x ys else x :: y :: ys

/-- The in-place stable sort `self.decls.as_mut_slice().sort()`, modelled by
the left-to-right insertion sort above. -/
def sortDecls (l : List ContextualPropertyDeclaration) :
    List ContextualPropertyDeclaration :=
  (l.foldl (fun acc x => insertByCmp x acc) []).reverse

/-- Source `ContextualPropertyDeclarations::sort`. -/
def ContextualPropertyDeclarations.sort (c : ContextualPropertyDeclarations) :
    ContextualPropertyDeclarations :=
  { c with decls := sortDecls c.decls }

/-! ### Declaration-list parsing boundary

The external `cssparser` machinery (tokenizing, the `DeclarationListParser`
loop that skips a failed entry and moves to the next one, `parse_important`,
`expect_exhausted`) and the external value parsers are abstracted into one
record per declaration entry, recording the outcome each external call would
produce on that entry's text.  The logic of `parse_value`,
`PropertyDeclaration::parse_into` and `parse_property_declaration_list` is
translated from the source. -/

/-- The externally determined outcomes for one declaration-list entry:
`resolved` is `PropertyId::parse(name)` (the registry lookup, `None` for an
unknown property name); `fontSizeValue` / `marginLeftValue` are the results
of the external value parsers on the entry's value section (`none` = syntax
error); `hasImportant` is whether `input.try_parse(parse_important)`
succeeds; `exhaustedAfter` is whether `input.expect_exhausted()` succeeds at
the end of the entry. -/
structure DeclEntry where
  resolved : Option PropertyId
  fontSizeValue : Option Nat
  marginLeftValue : Option Nat
  hasImportant : Bool
  exhaustedAfter : Bool
deriving DecidableEq

/-- Source `PropertyDeclaration::parse_into`: `Display`, the remaining longhands
and every shorthand are silently skipped (`{}` arms); `FontSize` and
`MarginLeft` push a declaration when their value parses, and propagate the
value parser's error otherwise (nothing is pushed on error, since the push
happens after the `?`). -/
def PropertyDeclaration.parseInto (declarations : List PropertyDeclaration)
    (id : PropertyId) (e : DeclEntry) :
    Except Unit (List PropertyDeclaration) :=
  match id with
  | .Longhand longId =>
    match longId with
    | .Display => .ok declarations
    | .FontSize =>
      match e.fontSizeValue with
      | some v => .ok (declarations ++ [.FontSize v])
      | none => .error ()
    | .MarginLeft =>
      match e.marginLeftValue with
      | some v => .ok (declarations ++ [.MarginLeft v])
      | none => .error ()
    | .other _ => .ok declarations
  | .Shorthand _ => .ok declarations

/-- Source `PropertyDeclarationParser::parse_value` on one entry.  The state is the
parser's accumulated `declarations` vector; the result is the updated vector
together with `some importance` on success and `none` on error.  As in the
source, an error after `parse_into` has pushed (an `expect_exhausted`
failure) leaves the pushed declarations in the vector. -/
def parseValue (declarations : List PropertyDeclaration) (e : DeclEntry) :
    List PropertyDeclaration × Option Importance :=
  match e.resolved with
  | none => (declarations, none)
  | some id =>
    match PropertyDeclaration.parseInto declarations id e with
    | .error _ => (declarations, none)
    | .ok declarations2 =>
      let importance :=
        if e.hasImportant then Importance.Important else Importance.Normal
      if e.exhaustedAfter then (declarations2, some importance)
      else (declarations2, none)

/-- Source `parse_property_declaration_list`: iterate the entries; on `Ok(imp)`
drain every accumulated declaration into the block with that importance; on
`Err` just log (`dbg!`) and continue — the accumulated vector is NOT
cleared. -/
def parsePropertyDeclarationList (entries : List DeclEntry) :
    PropertyDeclarationBlock :=
  (entries.foldl
    (fun (st : PropertyDeclarationBlock × List PropertyDeclaration) e =>
      match parseValue st.2 e with
      | (pending, some imp) =>
        (pending.foldl (fun b d => b.addDeclaration d imp) st.1, [])
      | (pending, none) => (st.1, pending))
    (PropertyDeclarationBlock.new, [])).1

/-! ### Specification-side helper notions -/

/-- The origin class of a `CssOrigin`: inline and embedded declarations rank
with author-origin sheets. -/
def CssOrigin.originClass : CssOrigin → CascadeOrigin
  | .Inline => .Author
  | .Embedded => .Author
  | .Sheet s => s.cascadeOrigin

/-- Rank of an origin class in the important-declaration precedence chain
UserAgent > User > Author. -/
def importantRank : CascadeOrigin → Nat
  | .UserAgent => 2
  | .User => 1
  | .Author => 0

/-- Rank of an origin class in the normal-declaration precedence chain
Author > User > UserAgent. -/
def normalRank : CascadeOrigin → Nat
  | .Author => 2
  | .User => 1
  | .UserAgent => 0

/-- The strict chain UserAgent > User > Author (same class ↦ `.eq`). -/
def importantChainCmp (a b : CascadeOrigin) : Ordering :=
  compare (importantRank a) (importantRank b)

/-- The strict inverted chain Author > User > UserAgent (same class ↦
`.eq`). -/
def normalChainCmp (a b : CascadeOrigin) : Ordering :=
  compare (normalRank a) (normalRank b)

/-- The importance flag as a number (important = 1, normal = 0). -/
def importanceBit (d : ContextualPropertyDeclaration) : Nat :=
  if d.important = true then 1 else 0

/-- The origin-class rank used at the origin step of `cmp`, picked from the
important or the normal (inverted) table according to the declaration's own
importance. -/
def rankOf (d : ContextualPropertyDeclaration) : Nat :=
  if d.important = true then importantRank d.origin.originClass
  else normalRank d.origin.originClass

/-- The property tags of a call sequence handed to `add_declaration`. -/
def callTags (calls : List (PropertyDeclaration × Importance)) : List PropTag :=
  calls.map fun c => c.1.tag

/-- First-occurrence deduplication: keeps each tag at the position of its
first occurrence. -/
def firstOccs (l : List PropTag) : List PropTag :=
  l.foldl (fun acc t => if t ∈ acc then acc else acc ++ [t]) []

/-- The last call of the sequence whose declaration carries tag `t`
(preferring later calls). -/
def lastCallWith (t : PropTag) :
    List (PropertyDeclaration × Importance) →
    Option (PropertyDeclaration × Importance)
  | [] => none
  | c :: cs =>
    match lastCallWith t cs with
    | some r => some r
    | none => if c.1.tag = t then some c else none

/-- Fold a call sequence into a block via `add_declaration`, starting from
the empty block. -/
def addAll (calls : List (PropertyDeclaration × Importance)) :
    PropertyDeclarationBlock :=
  calls.foldl (fun b c => b.addDeclaration c.1 c.2) PropertyDeclarationBlock.new

/-! ### Helper lemmas on the ordering -/

/-- The helper `cmp_important_origins` is exactly the UserAgent > User > Author chain
on origin classes. -/
theorem cmpImportantOrigins_eq_chain (a b : CssOrigin) :
    cmpImportantOrigins a b = importantChainCmp a.originClass b.originClass := by
  rcases a with _ | _ | ⟨na, ca⟩ <;> rcases b with _ | _ | ⟨nb, cb⟩ <;>
    (try cases ca) <;> (try cases cb) <;> rfl

/-- Swapping the important chain yields the normal (inverted) chain. -/
theorem importantChainCmp_swap (a b : CascadeOrigin) :
    (importantChainCmp a b).swap = normalChainCmp a b := by
  cases a <;> cases b <;> decide

/-- Comparing a `Nat` with itself yields `.eq`. -/
theorem natCompare_self (n : Nat) : compare n n = Ordering.eq :=
  Nat.compare_eq_eq.mpr rfl

/-- The function `cmp` under equal tag and equal importance reduces to the chain compare
followed by the specificity compare. -/
theorem cmp_same_importance (a b : ContextualPropertyDeclaration)
    (htag : a.innerDecl.tag = b.innerDecl.tag)
    (himp : a.important = b.important) :
    a.cmp b =
      ((if a.important = true then
          importantChainCmp a.origin.originClass b.origin.originClass
        else
          normalChainCmp a.origin.originClass b.origin.originClass).then
        (compare a.specificity b.specificity)) := by
  have hco := cmpImportantOrigins_eq_chain a.origin b.origin
  cases hai : a.important with
  | true =>
    have hbi : b.important = true := himp ▸ hai
    unfold ContextualPropertyDeclaration.cmp
    rw [if_pos htag]
    simp only [hai, hbi, Bool.not_true, Bool.and_false, Bool.false_and,
      Bool.and_self, if_false, if_true, Bool.true_and, ite_true, ite_false]
    rw [hco]
    cases h : importantChainCmp a.origin.originClass b.origin.originClass <;>
      simp [Ordering.then]
  | false =>
    have hbi : b.important = false := himp ▸ hai
    unfold ContextualPropertyDeclaration.cmp
    rw [if_pos htag]
    simp only [hai, hbi, Bool.not_false, Bool.and_false, Bool.false_and,
      Bool.and_self, if_false, if_true, Bool.true_and, ite_true, ite_false]
    rw [hco, ← importantChainCmp_swap]
    cases h : importantChainCmp a.origin.originClass b.origin.originClass <;>
      simp [Ordering.then, Ordering.swap]

/-! ### Dedup machinery for `add_declaration` sequences -/

/-- Appending one tag to `firstOccs`. -/
theorem firstOccs_concat (l : List PropTag) (t : PropTag) :
    firstOccs (l ++ [t]) =
      if t ∈ firstOccs l then firstOccs l else firstOccs l ++ [t] := by
  simp [firstOccs, List.foldl_append]

/-- The list `firstOccs l` has the same members as `l`. -/
theorem mem_firstOccs (l : List PropTag) : ∀ x, x ∈ firstOccs l ↔ x ∈ l := by
  induction l using List.reverseRecOn with
  | nil => intro x; simp [firstOccs]
  | append_singleton l y ih =>
    intro x
    rw [firstOccs_concat]
    by_cases h : y ∈ firstOccs l
    · have hy : y ∈ l := (ih y).mp h
      rw [if_pos h, List.mem_append, List.mem_singleton, ih x]
      exact ⟨Or.inl, fun hx => hx.elim id (fun hxy => hxy ▸ hy)⟩
    · rw [if_neg h]
      simp [List.mem_append, ih x]

/-- The list `firstOccs l` never repeats a tag. -/
theorem nodup_firstOccs (l : List PropTag) : (firstOccs l).Nodup := by
  induction l using List.reverseRecOn with
  | nil => simp [firstOccs]
  | append_singleton l y ih =>
    rw [firstOccs_concat]
    by_cases h : y ∈ firstOccs l
    · rwa [if_pos h]
    · rw [if_neg h]
      refine ih.append (List.nodup_singleton y) ?_
      intro a ha hay
      rw [List.mem_singleton] at hay
      exact h (hay ▸ ha)

/-- Unfolding `lastCallWith` over an appended call. -/
theorem lastCallWith_concat (t : PropTag)
    (calls : List (PropertyDeclaration × Importance))
    (c : PropertyDeclaration × Importance) :
    lastCallWith t (calls ++ [c]) =
      if c.1.tag = t then some c else lastCallWith t calls := by
  induction calls with
  | nil => rfl
  | cons d cs ih =>
    rw [List.cons_append, lastCallWith, ih]
    by_cases h : c.1.tag = t
    · simp [h]
    · simp only [if_neg h, lastCallWith]

/-- The scan `lastMatchIdx` finds nothing when the tag is absent. -/
theorem lastMatchIdx_eq_none (t : PropTag) (l : List PropertyDeclaration)
    (h : t ∉ l.map PropertyDeclaration.tag) : lastMatchIdx t l = none := by
  induction l with
  | nil => rfl
  | cons d ds ih =>
    rw [List.map_cons, List.mem_cons, not_or] at h
    rw [lastMatchIdx, ih h.2, if_neg (fun hdt => h.1 hdt.symm)]

/-- Under a duplicate-free tag sequence, the last matching index is the
unique index of the tag. -/
theorem lastMatchIdx_eq_indexOf (t : PropTag) (l : List PropertyDeclaration)
    (hnd : (l.map PropertyDeclaration.tag).Nodup)
    (h : t ∈ l.map PropertyDeclaration.tag) :
    lastMatchIdx t l = some ((l.map PropertyDeclaration.tag).indexOf t) := by
  induction l with
  | nil => simp at h
  | cons d ds ih =>
    rw [List.map_cons] at hnd h ⊢
    rw [List.nodup_cons] at hnd
    rcases List.mem_cons.mp h with heq | hmem
    · have hnot : t ∉ ds.map PropertyDeclaration.tag := heq ▸ hnd.1
      rw [lastMatchIdx, lastMatchIdx_eq_none t ds hnot, if_pos heq.symm, heq,
        List.indexOf_cons_self]
    · have hne : t ≠ d.tag := fun hteq => hnd.1 (hteq ▸ hmem)
      rw [lastMatchIdx, ih hnd.2 hmem,
        List.indexOf_cons_ne _ (fun hdt => hne hdt.symm)]

/-- Setting a member at its own index leaves the list unchanged. -/
theorem set_indexOf_self {α : Type} [DecidableEq α] (l : List α) {a : α}
    (h : a ∈ l) : l.set (l.indexOf a) a = l := by
  apply List.ext_getElem?
  intro n
  by_cases hn : l.indexOf a = n
  · subst hn
    rw [List.getElem?_set_self (List.indexOf_lt_length.mpr h),
      List.getElem?_eq_getElem (List.indexOf_lt_length.mpr h),
      List.getElem_indexOf]
  · rw [List.getElem?_set_ne hn]

/-- Full characterization of a block built by a sequence of
`add_declaration` calls: its tag sequence is the first-occurrence dedup of
the call tags, the importance bit-vector stays aligned, the longhand set is
never touched, and the slot of each present tag holds the payload and
importance of the last call with that tag. -/
theorem addAll_spec (calls : List (PropertyDeclaration × Importance)) :
    ((addAll calls).declarations.map PropertyDeclaration.tag
        = firstOccs (callTags calls))
    ∧ (addAll calls).declarationsImportance.length
        = (addAll calls).declarations.length
    ∧ (addAll calls).longhands = ∅
    ∧ ∀ t, t ∈ callTags calls →
        ((addAll calls).declarations[(firstOccs (callTags calls)).indexOf t]?
            = (lastCallWith t calls).map Prod.fst)
        ∧ ((addAll calls).declarationsImportance[(firstOccs
              (callTags calls)).indexOf t]?
            = (lastCallWith t calls).map fun c => c.2.important) := by
  induction calls using List.reverseRecOn with
  | nil =>
    refine ⟨rfl, rfl, rfl, ?_⟩
    intro t ht
    simp [callTags] at ht
  | append_singleton calls c ih =>
    obtain ⟨htags, hlen, hlong, hvals⟩ := ih
    have haddAll : addAll (calls ++ [c])
        = (addAll calls).addDeclaration c.1 c.2 := by
      simp [addAll, List.foldl_append]
    have hct : callTags (calls ++ [c]) = callTags calls ++ [c.1.tag] := by
      simp [callTags]
    have hnd : ((addAll calls).declarations.map PropertyDeclaration.tag).Nodup :=
      htags ▸ nodup_firstOccs _
    by_cases hmem :
        c.1.tag ∈ (addAll calls).declarations.map PropertyDeclaration.tag
    · have hmemF : c.1.tag ∈ firstOccs (callTags calls) := htags ▸ hmem
      have hltm : ((addAll calls).declarations.map
            PropertyDeclaration.tag).indexOf c.1.tag
          < ((addAll calls).declarations.map PropertyDeclaration.tag).length :=
        List.indexOf_lt_length.mpr hmem
      have hlt : ((addAll calls).declarations.map
            PropertyDeclaration.tag).indexOf c.1.tag
          < (addAll calls).declarations.length := by
        simpa using hltm
      have hadd : addAll (calls ++ [c]) =
          { declarations := (addAll calls).declarations.set
              (((addAll calls).declarations.map
                PropertyDeclaration.tag).indexOf c.1.tag) c.1
            declarationsImportance := (addAll calls).declarationsImportance.set
              (((addAll calls).declarations.map
                PropertyDeclaration.tag).indexOf c.1.tag) c.2.important
            longhands := (addAll calls).longhands } := by
        rw [haddAll]
        unfold PropertyDeclarationBlock.addDeclaration
        rw [lastMatchIdx_eq_indexOf _ _ hnd hmem]
      have hFO : firstOccs (callTags (calls ++ [c]))
          = firstOccs (callTags calls) := by
        rw [hct, firstOccs_concat, if_pos hmemF]
      have htags2 : (addAll (calls ++ [c])).declarations.map
          PropertyDeclaration.tag = firstOccs (callTags (calls ++ [c])) := by
        rw [hadd, hFO]
        show ((addAll calls).declarations.set _ c.1).map
            PropertyDeclaration.tag = _
        rw [List.map_set, set_indexOf_self _ hmem, htags]
      refine ⟨htags2, ?_, ?_, ?_⟩
      · rw [hadd]
        show ((addAll calls).declarationsImportance.set _ _).length
            = ((addAll calls).declarations.set _ _).length
        simp [hlen]
      · rw [hadd]
        exact hlong
      · intro t ht
        rw [hFO]
        by_cases heq : t = c.1.tag
        · have hidxF : (firstOccs (callTags calls)).indexOf c.1.tag
              = ((addAll calls).declarations.map
                  PropertyDeclaration.tag).indexOf c.1.tag := by rw [htags]
          have hlast : lastCallWith c.1.tag (calls ++ [c]) = some c := by
            rw [lastCallWith_concat, if_pos rfl]
          rw [heq]
          constructor
          · rw [hadd, hlast, hidxF]
            show ((addAll calls).declarations.set _ c.1)[_]? = _
            rw [List.getElem?_set_self hlt]
            rfl
          · rw [hadd, hlast, hidxF]
            show ((addAll calls).declarationsImportance.set _ _)[_]? = _
            rw [List.getElem?_set_self (by rw [hlen]; exact hlt)]
            rfl
        · have hmt : t ∈ callTags calls := by
            rw [hct] at ht
            rcases List.mem_append.mp ht with h' | h'
            · exact h'
            · exact absurd (List.mem_singleton.mp h') heq
          have hmemt : t ∈ (addAll calls).declarations.map
              PropertyDeclaration.tag := by
            rw [htags]
            exact (mem_firstOccs _ t).mpr hmt
          have hidxt : (firstOccs (callTags calls)).indexOf t
              = ((addAll calls).declarations.map
                  PropertyDeclaration.tag).indexOf t := by rw [htags]
          have hne : ((addAll calls).declarations.map
                PropertyDeclaration.tag).indexOf c.1.tag
              ≠ (firstOccs (callTags calls)).indexOf t := by
            rw [hidxt]
            intro habs
            exact heq ((List.indexOf_inj hmem hmemt).mp habs).symm
          have hlast : lastCallWith t (calls ++ [c])
              = lastCallWith t calls := by
            rw [lastCallWith_concat, if_neg (fun h' => heq h'.symm)]
          rw [hadd, hlast]
          constructor
          · show ((addAll calls).declarations.set _ c.1)[_]? = _
            rw [List.getElem?_set_ne hne]
            exact (hvals t hmt).1
          · show ((addAll calls).declarationsImportance.set _ _)[_]? = _
            rw [List.getElem?_set_ne hne]
            exact (hvals t hmt).2
    · have hmemF : c.1.tag ∉ firstOccs (callTags calls) := htags ▸ hmem
      have hadd : addAll (calls ++ [c]) =
          { declarations := (addAll calls).declarations ++ [c.1]
            declarationsImportance :=
              (addAll calls).declarationsImportance ++ [c.2.important]
            longhands := (addAll calls).longhands } := by
        rw [haddAll]
        unfold PropertyDeclarationBlock.addDeclaration
        rw [lastMatchIdx_eq_none _ _ hmem]
      have hFO : firstOccs (callTags (calls ++ [c]))
          = firstOccs (callTags calls) ++ [c.1.tag] := by
        rw [hct, firstOccs_concat, if_neg hmemF]
      have htags2 : (addAll (calls ++ [c])).declarations.map
          PropertyDeclaration.tag = firstOccs (callTags (calls ++ [c])) := by
        rw [hadd, hFO]
        show ((addAll calls).declarations ++ [c.1]).map
            PropertyDeclaration.tag = _
        rw [List.map_append, htags]
        rfl
      refine ⟨htags2, ?_, ?_, ?_⟩
      · rw [hadd]
        show ((addAll calls).declarationsImportance ++ _).length
            = ((addAll calls).declarations ++ _).length
        simp [hlen]
      · rw [hadd]
        exact hlong
      · intro t ht
        rw [hFO]
        by_cases heq : t = c.1.tag
        · have hidx : (firstOccs (callTags calls) ++ [c.1.tag]).indexOf c.1.tag
              = (addAll calls).declarations.length := by
            rw [List.indexOf_append_of_not_mem hmemF]
            have hL : (firstOccs (callTags calls)).length
                = (addAll calls).declarations.length := by
              rw [← htags, List.length_map]
            simp [List.indexOf_cons_self, hL]
          have hlast : lastCallWith c.1.tag (calls ++ [c]) = some c := by
            rw [lastCallWith_concat, if_pos rfl]
          rw [heq, hadd, hlast, hidx]
          constructor
          · show ((addAll calls).declarations ++ [c.1])[_]? = _
            rw [List.getElem?_concat_length]
            rfl
          · show ((addAll calls).declarationsImportance ++ [c.2.important])[_]? = _
            rw [← hlen, List.getElem?_concat_length]
            rfl
        · have hmt : t ∈ callTags calls := by
            rw [hct] at ht
            rcases List.mem_append.mp ht with h' | h'
            · exact h'
            · exact absurd (List.mem_singleton.mp h') heq
          have hmtF : t ∈ firstOccs (callTags calls) :=
            (mem_firstOccs _ t).mpr hmt
          have hidx : (firstOccs (callTags calls) ++ [c.1.tag]).indexOf t
              = (firstOccs (callTags calls)).indexOf t :=
            List.indexOf_append_of_mem hmtF
          have hidxlt : (firstOccs (callTags calls)).indexOf t
              < (addAll calls).declarations.length := by
            have h := List.indexOf_lt_length.mpr hmtF
            have hL : (firstOccs (callTags calls)).length
                = (addAll calls).declarations.length := by
              rw [← htags, List.length_map]
            rw [hL] at h
            exact h
          have hlast : lastCallWith t (calls ++ [c])
              = lastCallWith t calls := by
            rw [lastCallWith_concat, if_neg (fun h' => heq h'.symm)]
          rw [hadd, hlast, hidx]
          constructor
          · show ((addAll calls).declarations ++ [c.1])[_]? = _
            rw [List.getElem?_append_left hidxlt]
            exact (hvals t hmt).1
          · show ((addAll calls).declarationsImportance ++ _)[_]? = _
            rw [List.getElem?_append_left (by rw [hlen]; exact hidxlt)]
            exact (hvals t hmt).2

/-! ### Claims -/

/-- C1: for two contextual declarations of the same property tag with equal
specificity, when both are important `cmp` ranks them by the strict chain
UserAgent > User > Author on origin classes (same-class pairs Equal), and
when both are not important by the inverted strict chain
Author > User > UserAgent (same-class pairs Equal). -/
theorem cmp_origin_precedence_chains (a b : ContextualPropertyDeclaration)
    (htag : a.innerDecl.tag = b.innerDecl.tag)
    (himp : a.important = b.important)
    (hspec : a.specificity = b.specificity) :
    a.cmp b =
      (if a.important = true then
        importantChainCmp a.origin.originClass b.origin.originClass
      else
        normalChainCmp a.origin.originClass b.origin.originClass) := by
  rw [cmp_same_importance a b htag himp, hspec, natCompare_self]
  cases h : (if a.important = true then
      importantChainCmp a.origin.originClass b.origin.originClass
    else
      normalChainCmp a.origin.originClass b.origin.originClass) <;>
    simp [Ordering.then]

/-- Witness for C1 at concrete inputs: an important user-agent sheet
declaration vs an important user sheet declaration of equal tag and
specificity compares `.gt`, matching the UserAgent > User chain. -/
theorem cmp_origin_precedence_chains_witness :
    (ContextualPropertyDeclaration.mk (.FontSize 12) true
        (.Sheet ⟨"ua.css", .UserAgent⟩) none 0).cmp
      ⟨.FontSize 16, true, .Sheet ⟨"user.css", .User⟩, none, 0⟩ =
      (if true = true then
        importantChainCmp (CssOrigin.Sheet ⟨"ua.css", .UserAgent⟩).originClass
          (CssOrigin.Sheet ⟨"user.css", .User⟩).originClass
      else
        normalChainCmp (CssOrigin.Sheet ⟨"ua.css", .UserAgent⟩).originClass
          (CssOrigin.Sheet ⟨"user.css", .User⟩).originClass) :=
  cmp_origin_precedence_chains
    ⟨.FontSize 12, true, .Sheet ⟨"ua.css", .UserAgent⟩, none, 0⟩
    ⟨.FontSize 16, true, .Sheet ⟨"user.css", .User⟩, none, 0⟩
    rfl rfl rfl

/-- C4: with the same property tag and exactly one side important, `cmp`
ranks the important side strictly Greater (and the other side strictly
Less), regardless of origin and specificity. -/
theorem cmp_importance_monotonicity (a b : ContextualPropertyDeclaration)
    (htag : a.innerDecl.tag = b.innerDecl.tag)
    (ha : a.important = true) (hb : b.important = false) :
    a.cmp b = Ordering.gt ∧ b.cmp a = Ordering.lt := by
  constructor
  · unfold ContextualPropertyDeclaration.cmp
    rw [if_pos htag]
    simp [ha, hb]
  · unfold ContextualPropertyDeclaration.cmp
    rw [if_pos htag.symm]
    simp [ha, hb]

/-- Witness for C4 at concrete inputs: an important inline declaration vs a
normal user-agent sheet declaration of the same tag. -/
theorem cmp_importance_monotonicity_witness :
    (ContextualPropertyDeclaration.mk (.MarginLeft 5) true .Inline none 0).cmp
        ⟨.MarginLeft 7, false, .Sheet ⟨"ua.css", .UserAgent⟩, none, 9⟩ =
      Ordering.gt ∧
    (ContextualPropertyDeclaration.mk (.MarginLeft 7) false
        (.Sheet ⟨"ua.css", .UserAgent⟩) none 9).cmp
        ⟨.MarginLeft 5, true, .Inline, none, 0⟩ = Ordering.lt :=
  cmp_importance_monotonicity
    ⟨.MarginLeft 5, true, .Inline, none, 0⟩
    ⟨.MarginLeft 7, false, .Sheet ⟨"ua.css", .UserAgent⟩, none, 9⟩
    rfl rfl rfl

/-- C5: with the same property tag, the same importance and origins of the
same origin class, `cmp` returns exactly the comparison of the
specificities (Greater for strictly higher, Equal for equal). -/
theorem cmp_specificity_tiebreak (a b : ContextualPropertyDeclaration)
    (htag : a.innerDecl.tag = b.innerDecl.tag)
    (himp : a.important = b.important)
    (hclass : a.origin.originClass = b.origin.originClass) :
    a.cmp b = compare a.specificity b.specificity := by
  rw [cmp_same_importance a b htag himp, hclass]
  have h1 : importantChainCmp b.origin.originClass b.origin.originClass =
      Ordering.eq := natCompare_self _
  have h2 : normalChainCmp b.origin.originClass b.origin.originClass =
      Ordering.eq := natCompare_self _
  cases ha : a.important <;> simp [h1, h2, Ordering.then]

/-- Witness for C5 at concrete inputs: two normal author-class declarations
(an embedded one vs an author sheet one) with specificities 3 and 8. -/
theorem cmp_specificity_tiebreak_witness :
    (ContextualPropertyDeclaration.mk (.Display 2) false .Embedded none 3).cmp
        ⟨.Display 4, false, .Sheet ⟨"a.css", .Author⟩, none, 8⟩ =
      compare 3 8 :=
  cmp_specificity_tiebreak
    ⟨.Display 2, false, .Embedded, none, 3⟩
    ⟨.Display 4, false, .Sheet ⟨"a.css", .Author⟩, none, 8⟩
    rfl rfl rfl

/-- C6: two contextual declarations whose inner declarations carry different
property tags always compare Equal, for every combination of importance,
origin and specificity. -/
theorem cmp_cross_property_neutrality (a b : ContextualPropertyDeclaration)
    (h : a.innerDecl.tag ≠ b.innerDecl.tag) :
    a.cmp b = Ordering.eq := by
  unfold ContextualPropertyDeclaration.cmp
  rw [if_neg h]

/-- Witness for C6 at concrete inputs: an important high-specificity
user-agent font-size declaration vs a normal inline display declaration. -/
theorem cmp_cross_property_neutrality_witness :
    (ContextualPropertyDeclaration.mk (.FontSize 12) true
        (.Sheet ⟨"ua.css", .UserAgent⟩) none 1000).cmp
      ⟨.Display 0, false, .Inline, none, 0⟩ = Ordering.eq :=
  cmp_cross_property_neutrality
    ⟨.FontSize 12, true, .Sheet ⟨"ua.css", .UserAgent⟩, none, 1000⟩
    ⟨.Display 0, false, .Inline, none, 0⟩
    (by decide)

/-- C3 counterexample: the claim says an important Inline declaration
compares strictly Greater than an important user-agent sheet declaration of
the same tag; the code returns strictly Less (the important-origin table
ranks UserAgent above the Author class, to which Inline belongs). -/
theorem cmp_inline_vs_sheet_counterexample :
    (ContextualPropertyDeclaration.mk (.FontSize 0) true .Inline none 0).cmp
        ⟨.FontSize 0, true, .Sheet ⟨"ua.css", .UserAgent⟩, none, 0⟩ =
      Ordering.lt ∧
    Ordering.lt ≠ Ordering.gt := ⟨rfl, by decide⟩

/-- C3 amended: for same-tag declarations of equal importance, an Inline or
Embedded declaration compared against a Sheet declaration yields: against an
Author-origin sheet, exactly the specificity comparison (so Equal at equal
specificity); against a UserAgent- or User-origin sheet, strictly Less when
both are important and strictly Greater when both are not important. -/
theorem cmp_inline_embedded_vs_sheet (a b : ContextualPropertyDeclaration)
    (s : StylesheetOrigin)
    (htag : a.innerDecl.tag = b.innerDecl.tag)
    (ha : a.origin = .Inline ∨ a.origin = .Embedded)
    (hb : b.origin = .Sheet s)
    (himp : a.important = b.important) :
    a.cmp b =
      (match s.cascadeOrigin with
      | .Author => compare a.specificity b.specificity
      | .UserAgent => if a.important = true then Ordering.lt else Ordering.gt
      | .User => if a.important = true then Ordering.lt else Ordering.gt) := by
  have hclass : a.origin.originClass = CascadeOrigin.Author := by
    rcases ha with h | h <;> rw [h] <;> rfl
  have hbclass : b.origin.originClass = s.cascadeOrigin := by
    rw [hb]; rfl
  rw [cmp_same_importance a b htag himp, hclass, hbclass]
  cases hc : s.cascadeOrigin <;> cases hai : a.important <;>
    simp [importantChainCmp, normalChainCmp, importantRank, normalRank,
      Ordering.then] <;> rfl

/-- Witness for the amended C3 at concrete inputs: a normal embedded
declaration vs a normal user sheet declaration of the same tag. -/
theorem cmp_inline_embedded_vs_sheet_witness :
    (ContextualPropertyDeclaration.mk (.FontSize 1) false .Embedded none 0).cmp
        ⟨.FontSize 2, false, .Sheet ⟨"u.css", .User⟩, none, 2048⟩ =
      (match (⟨"u.css", CascadeOrigin.User⟩ : StylesheetOrigin).cascadeOrigin with
      | .Author => compare 0 2048
      | .UserAgent => if false = true then Ordering.lt else Ordering.gt
      | .User => if false = true then Ordering.lt else Ordering.gt) :=
  cmp_inline_embedded_vs_sheet
    ⟨.FontSize 1, false, .Embedded, none, 0⟩
    ⟨.FontSize 2, false, .Sheet ⟨"u.css", .User⟩, none, 2048⟩
    ⟨"u.css", .User⟩ rfl (Or.inr rfl) rfl rfl

/-- C2: a sequence of `add_declaration` calls (from the empty block) that
mentions a tag `t` leaves exactly one declaration with tag `t` in the block;
its slot holds the payload and importance of the last call with tag `t`, and
it sits at the slot created by the first call with tag `t` (the index of `t`
in the first-occurrence order of the call tags): replacement in place, not
move-to-end. -/
theorem addAll_dedup_last_wins (calls : List (PropertyDeclaration × Importance))
    (t : PropTag) (h : t ∈ callTags calls) :
    ((addAll calls).declarations.map PropertyDeclaration.tag).count t = 1 ∧
    (addAll calls).declarations[(firstOccs (callTags calls)).indexOf t]?
        = (lastCallWith t calls).map Prod.fst ∧
    (addAll calls).declarationsImportance[(firstOccs (callTags calls)).indexOf t]?
        = (lastCallWith t calls).map fun c => c.2.important := by
  obtain ⟨htags, hlen, hlong, hvals⟩ := addAll_spec calls
  refine ⟨?_, (hvals t h).1, (hvals t h).2⟩
  rw [htags]
  exact List.count_eq_one_of_mem (nodup_firstOccs _) ((mem_firstOccs _ t).mpr h)

/-- Witness for C2 at a concrete call sequence: three `font-size` calls with
a `display` call in between; the block keeps one `font-size` declaration, at
slot 0, holding the last payload (24) and the last importance (important). -/
theorem addAll_dedup_last_wins_witness :
    (PropTag.fontSize ∈ callTags
      [(.FontSize 12, .Normal), (.FontSize 16, .Normal),
       (.Display 1, .Important), (.FontSize 24, .Important)]) ∧
    (((addAll [(.FontSize 12, .Normal), (.FontSize 16, .Normal),
        (.Display 1, .Important), (.FontSize 24, .Important)]).declarations.map
          PropertyDeclaration.tag).count .fontSize = 1 ∧
      (addAll [(.FontSize 12, .Normal), (.FontSize 16, .Normal),
        (.Display 1, .Important), (.FontSize 24, .Important)]).declarations[
          (firstOccs (callTags [(.FontSize 12, .Normal), (.FontSize 16, .Normal),
            (.Display 1, .Important),
            (.FontSize 24, .Important)])).indexOf .fontSize]?
        = (lastCallWith .fontSize
            [(.FontSize 12, .Normal), (.FontSize 16, .Normal),
             (.Display 1, .Important), (.FontSize 24, .Important)]).map
            Prod.fst ∧
      (addAll [(.FontSize 12, .Normal), (.FontSize 16, .Normal),
        (.Display 1, .Important),
        (.FontSize 24, .Important)]).declarationsImportance[
          (firstOccs (callTags [(.FontSize 12, .Normal), (.FontSize 16, .Normal),
            (.Display 1, .Important),
            (.FontSize 24, .Important)])).indexOf .fontSize]?
        = (lastCallWith .fontSize
            [(.FontSize 12, .Normal), (.FontSize 16, .Normal),
             (.Display 1, .Important), (.FontSize 24, .Important)]).map
            fun c => c.2.important) :=
  ⟨by decide,
   addAll_dedup_last_wins
     [(.FontSize 12, .Normal), (.FontSize 16, .Normal),
      (.Display 1, .Important), (.FontSize 24, .Important)]
     .fontSize (by decide)⟩

/-- C7 (code bug): evaluation at the failing sequence
`new(); add_declaration(FontSize(12), Normal); remove_decl(0)`.  After the
add, the longhand set is still empty while a `FontSize` declaration is
present (so the set is NOT the set of contained tags); after the remove, the
declaration list is empty but the importance bit-vector still has length 1
(the bit is never popped). -/
theorem block_invariant_failing_input :
    ((PropertyDeclarationBlock.new.addDeclaration (.FontSize 12)
        .Normal).declarations = [.FontSize 12]) ∧
    ((PropertyDeclarationBlock.new.addDeclaration (.FontSize 12)
        .Normal).longhands = ∅) ∧
    ((PropertyDeclarationBlock.new.addDeclaration (.FontSize 12)
          .Normal).longhands ≠
      ((PropertyDeclarationBlock.new.addDeclaration (.FontSize 12)
          .Normal).declarations.map PropertyDeclaration.longhandId).toFinset) ∧
    (((PropertyDeclarationBlock.new.addDeclaration (.FontSize 12)
        .Normal).removeDecl 0).declarations.length = 0) ∧
    (((PropertyDeclarationBlock.new.addDeclaration (.FontSize 12)
        .Normal).removeDecl 0).declarationsImportance.length = 1) := by
  refine ⟨rfl, rfl, ?_, rfl, rfl⟩
  decide

/-- C9 (code bug): evaluation at the failing declaration list
`font-size: 12px !x; margin-left: 5px`.  The first entry's value parses but
`expect_exhausted` fails (the stray `!x` remains), so the entry errors — yet
the already-pushed `FontSize(12)` stays in the parser's vector and is
drained into the block by the next successful entry, so the failed entry DOES
contribute a declaration.  The second and third conjuncts record that the
failure alone contributes nothing and that an unknown-property entry is
dropped with parsing continuing. -/
theorem parse_list_leaks_failed_entry :
    ((parsePropertyDeclarationList
        [⟨some (.Longhand .FontSize), some 12, none, false, false⟩,
         ⟨some (.Longhand .MarginLeft), none, some 5, false, true⟩]).declarations
      = [.FontSize 12, .MarginLeft 5]) ∧
    ((parsePropertyDeclarationList
        [⟨some (.Longhand .FontSize), some 12, none, false, false⟩]).declarations
      = []) ∧
    ((parsePropertyDeclarationList
        [⟨none, none, none, false, true⟩,
         ⟨some (.Longhand .MarginLeft), none, some 5, false, true⟩]).declarations
      = [.MarginLeft 5]) :=
  ⟨rfl, rfl, rfl⟩

/-- C10: `parse_into` with the `Display` longhand, with any longhand other
than `FontSize` and `MarginLeft`, or with any shorthand, pushes nothing onto
the output vector and returns `Ok`, so such declarations silently vanish
from the parsed block even though `Display` is a `PropertyDeclaration`
variant. -/
theorem parseInto_silently_skips (declarations : List PropertyDeclaration)
    (e : DeclEntry) (n : Nat) (s : ShorthandId) :
    PropertyDeclaration.parseInto declarations (.Longhand .Display) e =
        .ok declarations ∧
    PropertyDeclaration.parseInto declarations (.Longhand (.other n)) e =
        .ok declarations ∧
    PropertyDeclaration.parseInto declarations (.Shorthand s) e =
        .ok declarations :=
  ⟨rfl, rfl, rfl⟩

/-! ### Sorting machinery for `ContextualPropertyDeclarations::sort` -/

/-- The function `Ordering.swap` distributes over `Ordering.then`. -/
theorem ordering_then_swap (x y : Ordering) :
    (x.then y).swap = x.swap.then y.swap := by
  cases x <;> rfl

/-- On same-tag declarations, `cmp` is the lexicographic comparison of the
key (importance bit, origin-class rank, specificity). -/
theorem cmp_eq_key (a b : ContextualPropertyDeclaration)
    (htag : a.innerDecl.tag = b.innerDecl.tag) :
    a.cmp b = (compare (importanceBit a) (importanceBit b)).then
      ((compare (rankOf a) (rankOf b)).then
        (compare a.specificity b.specificity)) := by
  cases hai : a.important <;> cases hbi : b.important
  · rw [cmp_same_importance a b htag (hai.trans hbi.symm)]
    simp [importanceBit, rankOf, hai, hbi, normalChainCmp, Ordering.then,
      natCompare_self]
  · unfold ContextualPropertyDeclaration.cmp
    rw [if_pos htag]
    simp [hai, hbi, importanceBit, Ordering.then,
      show compare (0 : Nat) 1 = Ordering.lt from rfl]
  · unfold ContextualPropertyDeclaration.cmp
    rw [if_pos htag]
    simp [hai, hbi, importanceBit, Ordering.then,
      show compare (1 : Nat) 0 = Ordering.gt from rfl]
  · rw [cmp_same_importance a b htag (hai.trans hbi.symm)]
    simp [importanceBit, rankOf, hai, hbi, importantChainCmp, Ordering.then,
      natCompare_self]

/-- Unfolding "the lexicographic key comparison is not `.lt`" into
arithmetic. -/
theorem thenCompare_ne_lt_iff (a1 b1 a2 b2 a3 b3 : Nat) :
    ((compare a1 b1).then ((compare a2 b2).then (compare a3 b3))
        ≠ Ordering.lt) ↔
      (b1 < a1 ∨ (a1 = b1 ∧ (b2 < a2 ∨ (a2 = b2 ∧ b3 ≤ a3)))) := by
  cases h1 : compare a1 b1 <;> cases h2 : compare a2 b2 <;>
    cases h3 : compare a3 b3 <;>
    simp only [Nat.compare_eq_lt, Nat.compare_eq_eq, Nat.compare_eq_gt]
      at h1 h2 h3 <;>
    simp [Ordering.then] <;> omega

/-- On same-tag declarations, `cmp` is antisymmetric under `Ordering.swap`. -/
theorem cmp_swap_same_tag (a b : ContextualPropertyDeclaration)
    (htag : a.innerDecl.tag = b.innerDecl.tag) :
    b.cmp a = (a.cmp b).swap := by
  rw [cmp_eq_key b a htag.symm, cmp_eq_key a b htag, ordering_then_swap,
    ordering_then_swap, Nat.compare_swap, Nat.compare_swap, Nat.compare_swap]

/-- "Cascade-greater-or-equal" is transitive on same-tag declarations. -/
theorem cmpGe_trans_same_tag (t : PropTag)
    (x y z : ContextualPropertyDeclaration)
    (htx : x.innerDecl.tag = t) (hty : y.innerDecl.tag = t)
    (htz : z.innerDecl.tag = t)
    (h1 : x.cmp y ≠ Ordering.lt) (h2 : y.cmp z ≠ Ordering.lt) :
    x.cmp z ≠ Ordering.lt := by
  rw [cmp_eq_key x y (htx.trans hty.symm), thenCompare_ne_lt_iff] at h1
  rw [cmp_eq_key y z (hty.trans htz.symm), thenCompare_ne_lt_iff] at h2
  rw [cmp_eq_key x z (htx.trans htz.symm), thenCompare_ne_lt_iff]
  omega

/-- Elements of `insertByCmp x acc` are `x` or elements of `acc`. -/
theorem insertByCmp_mem (x : ContextualPropertyDeclaration)
    (acc : List ContextualPropertyDeclaration) :
    ∀ z ∈ insertByCmp x acc, z = x ∨ z ∈ acc := by
  induction acc with
  | nil => simp [insertByCmp]
  | cons y ys ih =>
    intro z hz
    rw [insertByCmp] at hz
    by_cases h : x.cmp y = Ordering.lt
    · rw [if_pos h] at hz
      rcases List.mem_cons.mp hz with rfl | hz2
      · exact Or.inr (List.mem_cons_self _ _)
      · rcases ih z hz2 with h' | h'
        · exact Or.inl h'
        · exact Or.inr (List.mem_cons_of_mem _ h')
    · rw [if_neg h] at hz
      rcases List.mem_cons.mp hz with rfl | hz2
      · exact Or.inl rfl
      · exact Or.inr hz2

/-- Inserting into a reversed-sorted accumulator of same-tag declarations
preserves the reversed-sorted invariant ("each element is
cascade-greater-or-equal to everything after it"). -/
theorem insertByCmp_pairwise (t : PropTag) (x : ContextualPropertyDeclaration)
    (acc : List ContextualPropertyDeclaration)
    (htx : x.innerDecl.tag = t) (hta : ∀ z ∈ acc, z.innerDecl.tag = t)
    (hp : acc.Pairwise fun p q => p.cmp q ≠ Ordering.lt) :
    (insertByCmp x acc).Pairwise fun p q => p.cmp q ≠ Ordering.lt := by
  induction acc with
  | nil => simp [insertByCmp]
  | cons y ys ih =>
    have hty : y.innerDecl.tag = t := hta y (List.mem_cons_self _ _)
    have htys : ∀ z ∈ ys, z.innerDecl.tag = t :=
      fun z hz => hta z (List.mem_cons_of_mem _ hz)
    rcases List.pairwise_cons.mp hp with ⟨hyall, hpys⟩
    rw [insertByCmp]
    by_cases h : x.cmp y = Ordering.lt
    · rw [if_pos h]
      refine List.pairwise_cons.mpr ⟨?_, ih htys hpys⟩
      intro z hz
      rcases insertByCmp_mem x ys z hz with rfl | hz'
      · rw [cmp_swap_same_tag z y ?ht]
        case ht => rw [htx, hty]
        rw [h]
        simp [Ordering.swap]
      · exact hyall z hz'
    · rw [if_neg h]
      refine List.pairwise_cons.mpr ⟨?_, hp⟩
      intro z hz
      rcases List.mem_cons.mp hz with rfl | hz'
      · exact h
      · exact cmpGe_trans_same_tag t x y z htx hty (htys z hz') h
          (hyall z hz')

/-- Folding `insertByCmp` over a same-tag list preserves the
reversed-sorted invariant and tag-membership. -/
theorem foldl_insertByCmp_pairwise (t : PropTag) :
    ∀ (l acc : List ContextualPropertyDeclaration),
    (∀ d ∈ l, d.innerDecl.tag = t) → (∀ z ∈ acc, z.innerDecl.tag = t) →
    acc.Pairwise (fun p q => p.cmp q ≠ Ordering.lt) →
    ((l.foldl (fun acc x => insertByCmp x acc) acc).Pairwise
        fun p q => p.cmp q ≠ Ordering.lt) ∧
      (∀ z ∈ l.foldl (fun acc x => insertByCmp x acc) acc,
        z.innerDecl.tag = t) := by
  intro l
  induction l with
  | nil => exact fun acc _ hz hp => ⟨hp, hz⟩
  | cons d ds ih =>
    intro acc hl hz hp
    rw [List.foldl_cons]
    have htd : d.innerDecl.tag = t := hl d (List.mem_cons_self _ _)
    have hlds : ∀ x ∈ ds, x.innerDecl.tag = t :=
      fun x hx => hl x (List.mem_cons_of_mem _ hx)
    have hz2 : ∀ z ∈ insertByCmp d acc, z.innerDecl.tag = t := by
      intro z hzin
      rcases insertByCmp_mem d acc z hzin with rfl | h'
      · exact htd
      · exact hz z h'
    exact ih (insertByCmp d acc) hlds hz2
      (insertByCmp_pairwise t d acc htd hz hp)

/-- C8 counterexample: on a mixed-tag collection the claimed `sort()`
postcondition fails.  Sorting `[font-size important, display, font-size
normal]` leaves the sequence unchanged (the cross-tag comparisons are Equal,
so insertion sort never moves anything), yet the later `font-size normal`
element is strictly cascade-less than the earlier `font-size important`
one. -/
theorem sort_mixed_tag_counterexample :
    ((ContextualPropertyDeclarations.mk
        [⟨.FontSize 1, true, .Inline, none, 0⟩,
         ⟨.Display 0, false, .Inline, none, 0⟩,
         ⟨.FontSize 2, false, .Inline, none, 0⟩] ∅).sort).decls
      = [⟨.FontSize 1, true, .Inline, none, 0⟩,
         ⟨.Display 0, false, .Inline, none, 0⟩,
         ⟨.FontSize 2, false, .Inline, none, 0⟩] ∧
    (ContextualPropertyDeclaration.mk (.FontSize 2) false .Inline none
        0).innerDecl.tag
      = (ContextualPropertyDeclaration.mk (.FontSize 1) true .Inline none
        0).innerDecl.tag ∧
    (ContextualPropertyDeclaration.mk (.FontSize 2) false .Inline none 0).cmp
        ⟨.FontSize 1, true, .Inline, none, 0⟩
      = Ordering.lt := by
  refine ⟨rfl, rfl, rfl⟩

/-- C8 amended: the `sort()` postcondition holds for collections all of
whose declarations address one property tag (there the comparator is a total
preorder): in the sorted sequence every element is cascade-greater-or-equal
to every earlier element.  On mixed-tag collections the postcondition can
fail (see the counterexample). -/
theorem sort_single_tag_postcondition (c : ContextualPropertyDeclarations)
    (t : PropTag) (h : ∀ d ∈ c.decls, d.innerDecl.tag = t) :
    (c.sort).decls.Pairwise fun p q => q.cmp p ≠ Ordering.lt := by
  show (sortDecls c.decls).Pairwise _
  rw [sortDecls, List.pairwise_reverse]
  exact (foldl_insertByCmp_pairwise t c.decls [] h (by simp)
    List.Pairwise.nil).1

/-- Witness for the amended C8 on a concrete single-tag collection of three
`font-size` declarations in scrambled cascade order. -/
theorem sort_single_tag_postcondition_witness :
    (∀ d ∈ (ContextualPropertyDeclarations.mk
        [⟨.FontSize 1, false, .Inline, none, 5⟩,
         ⟨.FontSize 2, true, .Sheet ⟨"a.css", .Author⟩, none, 0⟩,
         ⟨.FontSize 3, false, .Sheet ⟨"ua.css", .UserAgent⟩, none, 9⟩] ∅).decls,
      d.innerDecl.tag = PropTag.fontSize) ∧
    ((ContextualPropertyDeclarations.mk
        [⟨.FontSize 1, false, .Inline, none, 5⟩,
         ⟨.FontSize 2, true, .Sheet ⟨"a.css", .Author⟩, none, 0⟩,
         ⟨.FontSize 3, false, .Sheet ⟨"ua.css", .UserAgent⟩, none, 9⟩]
        ∅).sort).decls.Pairwise (fun p q => q.cmp p ≠ Ordering.lt) :=
  ⟨by decide,
   sort_single_tag_postcondition
     (ContextualPropertyDeclarations.mk
        [⟨.FontSize 1, false, .Inline, none, 5⟩,
         ⟨.FontSize 2, true, .Sheet ⟨"a.css", .Author⟩, none, 0⟩,
         ⟨.FontSize 3, false, .Sheet ⟨"ua.css", .UserAgent⟩, none, 9⟩] ∅)
     .fontSize (by decide)⟩

end Kosmonaut
